import Mathlib

/-!
Verification of the Catalogizer installer-wizard network discovery engine
(src/installer-wizard/src-tauri/src/network.rs) and of the configuration
persistence pair (src/installer-wizard/src-tauri/src/main.rs).

Network I/O is embedded denotationally: the environment (outcomes of
timeout-bounded TCP connection attempts, the external ping and arp tools,
reverse-DNS answers, interface enumeration) is a record of functions, and
each Rust function becomes a pure Lean function over that record.
-/

namespace Catalogizer

/-- Outcome of one timeout-bounded TCP connection attempt, as observed by
the code through timeout(dur, TcpStream::connect(..)).await: the future
either completes with an established connection (success), completes with
an error such as connection refused (refused), or does not complete within
the timeout (noResponse).  The code only ever tests .is_ok() on the outer
timeout result, i.e. whether the future completed at all. -/
inductive ConnOutcome
  | success
  | refused
  | noResponse
deriving DecidableEq, Repr

/-- Bound addresses of a network interface; only the IPv4 ones carry data
(the v4 payload is the address as a number below 2^32). -/
inductive IfAddr
  | v4 (ip : Nat)
  | v6
deriving DecidableEq, Repr

/-- A network interface as delivered by NetworkInterface::show(): a name
and a list of bound addresses. -/
structure Interface where
  name : String
  addr : List IfAddr
deriving DecidableEq, Repr

/-- An ipnetwork::Ipv4Network value: an anchor address and a prefix
length. -/
structure Ipv4Network where
  addr : Nat
  prefixLen : Nat
deriving DecidableEq, Repr

/-- Ipv4Network::new(ip, prefix): errors only when the prefix length
exceeds 32. -/
def ipv4NetworkNew (ip p : Nat) : Option Ipv4Network :=
  if p ≤ 32 then some ⟨ip, p⟩ else none

/-- The environment a scan runs in: every network-visible fact the code
can observe.  conn ip port ms is the outcome of a connection attempt to
ip:port bounded by an ms-millisecond timeout; connTime ip port is the
instant the concurrent probe of that port completes (used to talk about
completion order); pingOk is the exit status of the external ping tool;
hostname the reverse-DNS answer; arp the parsed-to-lines stdout of a
successful arp -n invocation (none when the command fails); joinOk whether
the spawned per-address task joins without error; interfaces the result of
interface enumeration. -/
structure NetEnv where
  conn : Nat → Nat → Nat → ConnOutcome
  connTime : Nat → Nat → Nat
  pingOk : Nat → Bool
  hostname : Nat → Option String
  arp : Nat → Option (List (List Char))
  joinOk : Nat → Bool
  interfaces : Except String (List Interface)

/-- The NetworkHost record from main.rs. -/
structure NetworkHost where
  ip : String
  hostname : Option String
  mac_address : Option String
  vendor : Option String
  open_ports : List Nat
  smb_shares : List String
deriving DecidableEq, Repr

/-- Dotted-quad rendering of an IPv4 address (Ipv4Addr::to_string). -/
def ipToString (ip : Nat) : String :=
  toString (ip / 16777216 % 256) ++ "." ++ toString (ip / 65536 % 256) ++ "."
    ++ toString (ip / 256 % 256) ++ "." ++ toString (ip % 256)

/-- The fixed port list probed by is_host_alive. -/
def fastPorts : List Nat := [22, 80, 135, 139, 443, 445]

/-- is_host_alive from network.rs: try each fast port in order with a
100 ms timeout, returning true as soon as one attempt completes within
the timeout (established or refused both count — only a non-completing
attempt counts as failure); if all six fail, fall back to the external
ping tool (one packet) and report its exit status. -/
def is_host_alive (env : NetEnv) (ip : Nat) : Bool :=
  (fastPorts.any fun p => env.conn ip p 100 ≠ ConnOutcome.noResponse) || env.pingOk ip

/-- The fixed seventeen-port list probed by scan_ports. -/
def common_ports : List Nat :=
  [21, 22, 23, 25, 53, 80, 110, 135, 139, 143, 443, 445, 993, 995, 3389, 5985, 5986]

/-- scan_ports from network.rs: one concurrent probe per port of the fixed
list, each bounded by a 200 ms timeout; a port is kept iff its attempt
completes within the timeout.  The collection loop awaits the spawned
tasks in spawn order and pushes in that order, so the result is the
in-list-order filter of the fixed port list. -/
def scan_ports (env : NetEnv) (ip : Nat) : List Nat :=
  common_ports.filter fun p => env.conn ip p 200 ≠ ConnOutcome.noResponse

/-- The static candidate share-name list of scan_smb_shares_for_host. -/
def staticShares : List String :=
  ["C$", "ADMIN$", "IPC$", "shared", "public", "media", "downloads"]

/-- scan_smb_shares_for_host from network.rs: a placeholder that always
returns the static candidate list (no real SMB enumeration). -/
def scan_smb_shares_for_host (_ip : Nat) : Except String (List String) :=
  Except.ok staticShares

/-- Substring test on character lists, mirroring Rust's
str::contains(&needle) on the haystack line. -/
def containsSeq (needle : List Char) : List Char → Bool
  | [] => needle.isEmpty
  | c :: rest => needle.isPrefixOf (c :: rest) || containsSeq needle rest

/-- Whitespace test used by str::split_whitespace (restricted to the ASCII
whitespace characters that occur in arp output). -/
def isWsChar (c : Char) : Bool :=
  c = ' ' || c = '\t' || c = '\n' || c = '\r'

/-- str::split_whitespace on a character list: the maximal runs of
non-whitespace characters, in order. -/
def splitWs : List Char → List (List Char)
  | [] => []
  | c :: rest =>
    if isWsChar c then splitWs rest
    else
      match splitWs rest with
      | [] => [[c]]
      | tok :: toks =>
        match rest with
        | [] => [[c]]
        | d :: _ => if isWsChar d then [c] :: tok :: toks else (c :: tok) :: toks

/-- The shape test get_mac_address applies to a candidate token:
mac.contains(':') && mac.len() == 17. -/
def macShape (tok : List Char) : Bool :=
  tok.contains ':' && tok.length = 17

/-- The per-line step of get_mac_address: when the line contains the
target address and splits into at least three whitespace-separated
fields, test the third field (index 2) for MAC shape. -/
def lineMac (ipStr line : List Char) : Option (List Char) :=
  if containsSeq ipStr line then
    match (splitWs line).drop 2 with
    | [] => none
    | tok :: _ => if macShape tok then some tok else none
  else none

/-- get_mac_address from network.rs, over the arp tool's output: none when
the command failed or its output was not text (the argument is none), else
the first MAC-shaped third field of a line containing the target address. -/
def getMacFromOutput (ipStr : List Char) : Option (List (List Char)) → Option (List Char)
  | none => none
  | some lines => lines.findSome? (lineMac ipStr)

/-- get_mac_address specialised to an environment: the arp output for the
given address, parsed as above, rendered back to a string. -/
def get_mac_address (env : NetEnv) (ip : Nat) : Option String :=
  (getMacFromOutput (ipToString ip).data (env.arp ip)).map fun cs => String.mk cs

/-- The loop body of get_network_range: scan the bound addresses in order
and return the first IPv4 address successfully widened to a /24 network. -/
def getNetworkRangeAux : List IfAddr → Option Ipv4Network
  | [] => none
  | IfAddr.v4 ip :: rest =>
    match ipv4NetworkNew ip 24 with
    | some net => some net
    | none => getNetworkRangeAux rest
  | IfAddr.v6 :: rest => getNetworkRangeAux rest

/-- get_network_range from network.rs. -/
def get_network_range (itf : Interface) : Option Ipv4Network :=
  getNetworkRangeAux itf.addr

/-- The spec-side notion of the first IPv4 address bound to an interface,
used to state what get_network_range derives its range from. -/
def firstIPv4 : List IfAddr → Option Nat
  | [] => none
  | IfAddr.v4 ip :: _ => some ip
  | IfAddr.v6 :: rest => firstIPv4 rest

/-- The candidate addresses Ipv4Network::iter enumerates: the full block
of 2^(32-prefix) addresses containing the anchor. -/
def ipsOf (net : Ipv4Network) : List Nat :=
  let size := 2 ^ (32 - net.prefixLen)
  (List.range size).map fun i => net.addr / size * size + i

/-- MAX_CONCURRENT_SCANS from network.rs. -/
def MAX_CONCURRENT_SCANS : Nat := 32

/-- scan_host from network.rs: gather hostname, MAC, open ports, and —
only when port 445 or 139 is among the open ports — the static SMB share
hints (scan_smb_shares_for_host never fails; unwrap_or_default is the
identity on its Ok result). -/
def scan_host (env : NetEnv) (ip : Nat) : NetworkHost :=
  let op := scan_ports env ip
  { ip := ipToString ip
    hostname := env.hostname ip
    mac_address := get_mac_address env ip
    vendor := none
    open_ports := op
    smb_shares :=
      if op.contains 445 || op.contains 139 then
        match scan_smb_shares_for_host ip with
        | Except.ok shares => shares
        | Except.error _ => []
      else [] }

/-- scan_network_range from network.rs: one task per candidate address of
the range, gated by the 32-permit semaphore; a task contributes a host
record iff it joins without error and its address passes the liveness
probe.  The function never produces an error. -/
def scan_network_range (env : NetEnv) (net : Ipv4Network) :
    Except String (List NetworkHost) :=
  Except.ok
    (((ipsOf net).filter fun ip => env.joinOk ip && is_host_alive env ip).map
      (scan_host env))

/-- Ascending comparison on the dotted-quad address strings, as used by
hosts.sort_by(|a, b| a.ip.cmp(&b.ip)). -/
def hostLe (a b : NetworkHost) : Prop := a.ip ≤ b.ip

instance : DecidableRel hostLe := fun a b =>
  inferInstanceAs (Decidable (a.ip ≤ b.ip))

instance : IsTotal NetworkHost hostLe := ⟨fun a b => le_total a.ip b.ip⟩

instance : IsTrans NetworkHost hostLe := ⟨fun _ _ _ h h2 => le_trans h h2⟩

/-- The strict version of hostLe. -/
def hostLt (a b : NetworkHost) : Prop := a.ip < b.ip

instance : IsTrans NetworkHost hostLt := ⟨fun _ _ _ h h2 => lt_trans h h2⟩

/-- The retained-element loop of Vec::dedup_by: drop each element equal
(under eq) to the last retained one, otherwise retain it. -/
def dedupByAux (eq : NetworkHost → NetworkHost → Bool) (prev : NetworkHost) :
    List NetworkHost → List NetworkHost
  | [] => []
  | b :: rest =>
    if eq b prev then dedupByAux eq prev rest
    else b :: dedupByAux eq b rest

/-- Vec::dedup_by: remove all but the first of consecutive elements
related by eq. -/
def dedupBy (eq : NetworkHost → NetworkHost → Bool) :
    List NetworkHost → List NetworkHost
  | [] => []
  | a :: rest => a :: dedupByAux eq a rest

/-- The address-equality predicate of hosts.dedup_by(|a, b| a.ip == b.ip). -/
def ipEq (a b : NetworkHost) : Bool := a.ip = b.ip

/-- The body of scan_network's interface loop: skip interfaces with an
empty address list or no derivable range, otherwise append the range's
hosts (a scan_network_range failure would propagate, per the source's
question-mark operator). -/
def scanFoldStep (env : NetEnv) (acc : List NetworkHost) (itf : Interface) :
    Except String (List NetworkHost) :=
  if itf.addr.isEmpty then pure acc
  else
    match get_network_range itf with
    | some net => do
      let networkHosts ← scan_network_range env net
      pure (acc ++ networkHosts)
    | none => pure acc

/-- scan_network from network.rs: enumerate interfaces (failures here
propagate), derive a /24 range per interface with a nonempty address
list, collect each range's hosts, then sort by address string and remove
adjacent duplicate addresses. -/
def scan_network (env : NetEnv) : Except String (List NetworkHost) := do
  let interfaces ← env.interfaces
  let hosts ← interfaces.foldlM (scanFoldStep env) []
  pure (dedupBy ipEq (List.insertionSort hostLe hosts))

/-- Status of one spawned per-address unit of work in scan_network_range:
it has not yet acquired a semaphore permit, or it holds a permit and is in
flight (liveness probe plus enrichment), or it has finished and released
its permit. -/
inductive TaskStatus
  | notStarted
  | inFlight
  | finished
deriving DecidableEq, Repr

/-- A state of the scan_network_range fan-out: the statuses of the
spawned tasks, one list entry per candidate address. -/
def ScanState := List TaskStatus

/-- Number of tasks currently holding a permit. -/
def inFlightCount (s : ScanState) : Nat :=
  s.countP fun t => t = TaskStatus.inFlight

/-- One scheduler step of the semaphore-gated fan-out, modelling
Semaphore::new(MAX_CONCURRENT_SCANS): a task may move into flight only
when fewer than MAX_CONCURRENT_SCANS permits are held, and an in-flight
task may finish at any time, releasing its permit. -/
inductive ScanStep : ScanState → ScanState → Prop
  | acquire (s : ScanState) (i : Nat) (hi : s.get? i = some TaskStatus.notStarted)
      (hcap : inFlightCount s < MAX_CONCURRENT_SCANS) :
      ScanStep s (s.set i TaskStatus.inFlight)
  | finish (s : ScanState) (i : Nat) (hi : s.get? i = some TaskStatus.inFlight) :
      ScanStep s (s.set i TaskStatus.finished)

/-- States reachable by the fan-out that scan_network_range starts for a
/24 range: 256 tasks, none started, then any interleaving of permitted
steps. -/
inductive ScanReachable : ScanState → Prop
  | init : ScanReachable (List.replicate 256 TaskStatus.notStarted)
  | step {s t : ScanState} : ScanReachable s → ScanStep s t → ScanReachable t

/-- A concrete environment in which nothing answers: every connection
attempt times out, ping fails, arp fails, there are no interfaces. -/
def envAllDead : NetEnv where
  conn := fun _ _ _ => ConnOutcome.noResponse
  connTime := fun _ _ => 0
  pingOk := fun _ => false
  hostname := fun _ => none
  arp := fun _ => none
  joinOk := fun _ => true
  interfaces := Except.ok []

/-- A concrete environment in which only port 22 answers (with an
established connection) on every host. -/
def envSshOnly : NetEnv where
  conn := fun _ port _ => if port = 22 then ConnOutcome.success else ConnOutcome.noResponse
  connTime := fun _ _ => 0
  pingOk := fun _ => false
  hostname := fun _ => none
  arp := fun _ => none
  joinOk := fun _ => true
  interfaces := Except.ok []

/-- C2: the liveness verdict of is_host_alive is true iff some fast-port
attempt (100 ms timeout, ports tried in list order) completes within its
timeout — an established or a refused connection both count, only a
non-completing attempt is a failure — or, all six attempts having failed,
the external single-packet ping exits successfully; in particular an
address with nothing answering on the fast-probe ports and a failing ping
yields false. -/
theorem c2_liveness_verdict (env : NetEnv) (ip : Nat) :
    (is_host_alive env ip = true ↔
      ((∃ p ∈ fastPorts, env.conn ip p 100 ≠ ConnOutcome.noResponse) ∨
        env.pingOk ip = true)) ∧
    ((∀ p ∈ fastPorts, env.conn ip p 100 = ConnOutcome.noResponse) →
      env.pingOk ip = false → is_host_alive env ip = false) := by
  constructor
  · simp [is_host_alive, List.any_eq_true]
  · intro hall hping
    simp only [is_host_alive, Bool.or_eq_false_iff]
    refine ⟨?_, hping⟩
    simp only [List.any_eq_false, decide_eq_true_eq]
    intro p hp
    simp [hall p hp]

/-- Witness for C2: in the environment where nothing answers, host .5 of
192.168.1.0/24 is reported dead. -/
theorem c2_liveness_verdict_witness : is_host_alive envAllDead 3232235781 = false :=
  (c2_liveness_verdict envAllDead 3232235781).2 (fun _ _ => rfl) rfl

/-- C3: a port of the fixed seventeen-port list appears in scan_ports'
result exactly when its 200 ms-bounded connection attempt completes
within the timeout; a port whose attempt does not complete is absent. -/
theorem c3_port_membership (env : NetEnv) (ip p : Nat) (hp : p ∈ common_ports) :
    p ∈ scan_ports env ip ↔ env.conn ip p 200 ≠ ConnOutcome.noResponse := by
  simp [scan_ports, List.mem_filter, hp]

/-- Witness for C3: in the environment where only port 22 answers, port
22 is in the scan result of host .7. -/
theorem c3_port_membership_witness : 22 ∈ scan_ports envSshOnly 3232235783 :=
  (c3_port_membership envSshOnly 3232235783 22 (by decide)).mpr (by decide)

/-- A concrete environment exhibiting completion order opposite to list
order: ports 22 and 445 both answer, and the probe of port 445 completes
well before the probe of port 22. -/
def envC4 : NetEnv where
  conn := fun _ port _ =>
    if port = 22 || port = 445 then ConnOutcome.success else ConnOutcome.noResponse
  connTime := fun _ port => if port = 445 then 10 else 150
  pingOk := fun _ => false
  hostname := fun _ => none
  arp := fun _ => none
  joinOk := fun _ => true
  interfaces := Except.ok []

/-- Counterexample to C4 as stated: scan_ports awaits its spawned probes
in spawn order, so even in an execution where the probe of port 445
completes before the probe of port 22, the result lists 22 before 445 —
the returned order is the input list order, not the completion order. -/
theorem c4_counterexample :
    scan_ports envC4 0 = [22, 445] ∧ envC4.connTime 0 445 < envC4.connTime 0 22 := by
  exact ⟨by decide, by decide⟩

/-- C4 amended: the order of ports in scan_ports' result follows the
fixed input port list order — the result is always a sublist of
common_ports — regardless of the completion order of the concurrent
probes. -/
theorem c4_result_order (env : NetEnv) (ip : Nat) :
    List.Sublist (scan_ports env ip) common_ports :=
  List.filter_sublist common_ports

/-- The smb_shares field of a host record, characterised by whether 445
or 139 is among the open ports. -/
theorem scan_host_smb_shares (env : NetEnv) (ip : Nat) :
    (scan_host env ip).smb_shares =
      if 445 ∈ scan_ports env ip ∨ 139 ∈ scan_ports env ip then staticShares
      else [] := by
  by_cases h : 445 ∈ scan_ports env ip ∨ 139 ∈ scan_ports env ip <;>
    simp [scan_host, scan_smb_shares_for_host, h]

/-- C5: a host record's smb_shares is non-empty only if its open ports
include 445 or 139; when they do, it is exactly the static candidate
share-name list (a fallback, not a real SMB enumeration), and otherwise
it is empty. -/
theorem c5_smb_share_hints (env : NetEnv) (ip : Nat) :
    ((scan_host env ip).smb_shares ≠ [] →
      445 ∈ (scan_host env ip).open_ports ∨ 139 ∈ (scan_host env ip).open_ports) ∧
    ((445 ∈ (scan_host env ip).open_ports ∨ 139 ∈ (scan_host env ip).open_ports) →
      (scan_host env ip).smb_shares = staticShares) ∧
    ((445 ∉ (scan_host env ip).open_ports ∧ 139 ∉ (scan_host env ip).open_ports) →
      (scan_host env ip).smb_shares = []) := by
  have hop : (scan_host env ip).open_ports = scan_ports env ip := rfl
  rw [hop]
  by_cases h : 445 ∈ scan_ports env ip ∨ 139 ∈ scan_ports env ip
  · have hs := scan_host_smb_shares env ip
    rw [if_pos h] at hs
    exact ⟨fun _ => h, fun _ => hs, fun hno => absurd h (by tauto)⟩
  · have hs := scan_host_smb_shares env ip
    rw [if_neg h] at hs
    exact ⟨fun hne => absurd hs hne, fun hmem => absurd hmem h, fun _ => hs⟩

/-- Witness for C5: in the environment where only port 22 answers, host
.9's record has no 445/139 and empty share hints. -/
theorem c5_smb_share_hints_witness : (scan_host envSshOnly 3232235785).smb_shares = [] :=
  (c5_smb_share_hints envSshOnly 3232235785).2.2 (by decide)

/-- The loop of get_network_range characterised against the first IPv4
address of the list: no IPv4 address yields no range, and a first IPv4
address ip yields exactly the /24 network anchored at ip. -/
theorem getNetworkRangeAux_spec (l : List IfAddr) :
    (firstIPv4 l = none → getNetworkRangeAux l = none) ∧
    (∀ ip, firstIPv4 l = some ip →
      getNetworkRangeAux l = some ⟨ip, 24⟩) := by
  induction l with
  | nil => simp [firstIPv4, getNetworkRangeAux]
  | cons a rest ih =>
    cases a with
    | v4 ip => simp [firstIPv4, getNetworkRangeAux, ipv4NetworkNew]
    | v6 => simpa [firstIPv4, getNetworkRangeAux] using ih

/-- C8: get_network_range returns exactly one /24 range — the one anchored
at the first IPv4 address bound to the interface — when such an address
exists, and no range when the interface has no IPv4 address. -/
theorem c8_network_range (itf : Interface) :
    (firstIPv4 itf.addr = none → get_network_range itf = none) ∧
    (∀ ip, firstIPv4 itf.addr = some ip →
      get_network_range itf = some ⟨ip, 24⟩ ∧ (⟨ip, 24⟩ : Ipv4Network).prefixLen = 24) := by
  refine ⟨fun h => (getNetworkRangeAux_spec itf.addr).1 h, fun ip h => ⟨?_, rfl⟩⟩
  exact (getNetworkRangeAux_spec itf.addr).2 ip h

/-- Witness for C8: a concrete interface with a v6 address followed by
the IPv4 address 192.168.1.1 derives the /24 anchored there. -/
theorem c8_network_range_witness :
    get_network_range ⟨"eth0", [IfAddr.v6, IfAddr.v4 3232235777]⟩ =
      some ⟨3232235777, 24⟩ :=
  ((c8_network_range ⟨"eth0", [IfAddr.v6, IfAddr.v4 3232235777]⟩).2 3232235777 rfl).1

/-- One interface-loop step never fails: every per-host failure mode has
already been absorbed inside scan_network_range. -/
theorem scanFoldStep_ok (env : NetEnv) (acc : List NetworkHost) (itf : Interface) :
    ∃ r, scanFoldStep env acc itf = Except.ok r := by
  unfold scanFoldStep
  by_cases he : itf.addr.isEmpty
  · exact ⟨acc, by simp [he, pure, Except.pure]⟩
  · simp only [he, if_false]
    cases hr : get_network_range itf with
    | some net => exact ⟨_, rfl⟩
    | none => exact ⟨acc, rfl⟩

/-- The interface fold never fails. -/
theorem scanFold_ok (env : NetEnv) :
    ∀ (ifs : List Interface) (acc : List NetworkHost),
      ∃ r, List.foldlM (scanFoldStep env) acc ifs = Except.ok r := by
  intro ifs
  induction ifs with
  | nil => exact fun acc => ⟨acc, rfl⟩
  | cons itf rest ih =>
    intro acc
    obtain ⟨r, hr⟩ := scanFoldStep_ok env acc itf
    obtain ⟨r2, hr2⟩ := ih r
    exact ⟨r2, by simp [List.foldlM_cons, hr, bind, Except.bind, hr2]⟩

/-- C6: scan_network fails exactly when interface enumeration fails (with
the same error), and succeeds with a complete result whenever enumeration
succeeds — every per-host failure is absorbed into absence of data rather
than surfaced. -/
theorem c6_error_surface (env : NetEnv) :
    (∀ e, scan_network env = Except.error e ↔ env.interfaces = Except.error e) ∧
    (∀ ifs, env.interfaces = Except.ok ifs →
      ∃ hosts, scan_network env = Except.ok hosts) := by
  constructor
  · intro e
    cases hi : env.interfaces with
    | error e2 =>
      simp only [scan_network, hi, bind, Except.bind, Except.error.injEq]
    | ok ifs =>
      obtain ⟨r, hr⟩ := scanFold_ok env ifs []
      simp [scan_network, hi, bind, Except.bind, hr, pure, Except.pure]
  · intro ifs hi
    obtain ⟨r, hr⟩ := scanFold_ok env ifs []
    refine ⟨dedupBy ipEq (List.insertionSort hostLe r), ?_⟩
    simp [scan_network, hi, bind, Except.bind, hr, pure, Except.pure]

/-- Witness for C6: with no interfaces, scan of the dead environment
succeeds (with the empty inventory). -/
theorem c6_error_surface_witness : ∃ hosts, scan_network envAllDead = Except.ok hosts :=
  (c6_error_surface envAllDead).2 [] rfl

/-- dedupByAux only ever drops elements. -/
theorem dedupByAux_sublist (eq : NetworkHost → NetworkHost → Bool) :
    ∀ (l : List NetworkHost) (prev : NetworkHost),
      List.Sublist (dedupByAux eq prev l) l := by
  intro l
  induction l with
  | nil => exact fun _ => List.Sublist.refl []
  | cons b rest ih =>
    intro prev
    unfold dedupByAux
    by_cases hb : eq b prev
    · simpa [hb] using List.Sublist.cons b (ih prev)
    · simpa [hb] using List.Sublist.cons₂ b (ih b)

/-- On a list sorted by address, the retained-element dedup loop produces
a chain that is strictly increasing by address. -/
theorem dedupByAux_chain_lt :
    ∀ (l : List NetworkHost) (prev : NetworkHost),
      List.Sorted hostLe (prev :: l) →
      List.Chain' hostLt (prev :: dedupByAux ipEq prev l) := by
  intro l
  induction l with
  | nil => intro prev _; simp [dedupByAux]
  | cons b rest ih =>
    intro prev hsort
    unfold dedupByAux
    by_cases hb : ipEq b prev
    · rw [if_pos hb]
      refine ih prev ?_
      exact hsort.sublist (List.Sublist.cons₂ prev (List.Sublist.cons b (List.Sublist.refl rest)))
    · rw [if_neg hb]
      rw [List.chain'_cons]
      constructor
      · have hle : hostLe prev b := (List.sorted_cons.mp hsort).1 b (List.mem_cons_self b rest)
        have hne : ¬(b.ip = prev.ip) := by
          simpa [ipEq] using hb
        exact lt_of_le_of_ne hle fun hc => hne (by rw [hc])
      · exact ih b (List.sorted_cons.mp hsort).2

/-- Vec::dedup_by on an address-sorted list yields a list strictly
increasing by address. -/
theorem dedupBy_pairwise_lt (l : List NetworkHost) (hl : List.Sorted hostLe l) :
    List.Pairwise hostLt (dedupBy ipEq l) := by
  cases l with
  | nil => simp [dedupBy]
  | cons a rest =>
    have hchain := dedupByAux_chain_lt rest a hl
    rw [List.chain'_iff_pairwise] at hchain
    simpa [dedupBy] using hchain

/-- C1: every successful scan_network result is sorted ascending by the
dotted-quad address string under lexicographic comparison, and no two of
its records share an address. -/
theorem c1_sorted_unique_addresses (env : NetEnv) (hosts : List NetworkHost)
    (h : scan_network env = Except.ok hosts) :
    List.Sorted hostLe hosts ∧ List.Pairwise (fun a b => a.ip ≠ b.ip) hosts := by
  cases hi : env.interfaces with
  | error e =>
    rw [scan_network, hi] at h
    exact absurd h (by simp [bind, Except.bind])
  | ok ifs =>
    obtain ⟨r, hr⟩ := scanFold_ok env ifs []
    rw [scan_network, hi] at h
    simp only [bind, Except.bind, hr, pure, Except.pure, Except.ok.injEq] at h
    subst h
    have hsorted : List.Sorted hostLe (List.insertionSort hostLe r) :=
      List.sorted_insertionSort hostLe r
    have hp := dedupBy_pairwise_lt (List.insertionSort hostLe r) hsorted
    constructor
    · exact hp.imp fun hab => le_of_lt hab
    · exact hp.imp fun hab => ne_of_lt hab

/-- A concrete environment with one interface on 192.168.1.0/24 and two
hosts (.2 and .10) answering on port 22. -/
def envTwoAlive : NetEnv where
  conn := fun ip port _ =>
    if (ip = 3232235778 || ip = 3232235786) && port = 22 then ConnOutcome.success
    else ConnOutcome.noResponse
  connTime := fun _ _ => 0
  pingOk := fun _ => false
  hostname := fun _ => none
  arp := fun _ => none
  joinOk := fun _ => true
  interfaces := Except.ok [⟨"eth0", [IfAddr.v4 3232235777]⟩]

/-- Witness for C1: the two-host scan yields a sorted, duplicate-free
inventory (lexicographically, "192.168.1.10" precedes "192.168.1.2"). -/
theorem c1_sorted_unique_addresses_witness :
    ∃ hosts, scan_network envTwoAlive = Except.ok hosts ∧
      List.Sorted hostLe hosts ∧ List.Pairwise (fun a b => a.ip ≠ b.ip) hosts := by
  refine ⟨_, rfl, c1_sorted_unique_addresses envTwoAlive _ rfl⟩

/-- Acquiring a permit (not-started to in-flight at one position) raises
the in-flight count by exactly one. -/
theorem inFlightCount_set_acquire :
    ∀ (s : List TaskStatus) (i : Nat), s.get? i = some TaskStatus.notStarted →
      inFlightCount (s.set i TaskStatus.inFlight) = inFlightCount s + 1 := by
  intro s
  induction s with
  | nil => intro i h; simp at h
  | cons x rest ih =>
    intro i h
    cases i with
    | zero =>
      simp only [List.get?] at h
      cases h
      simp [inFlightCount, List.set, List.countP_cons]
    | succ j =>
      simp only [List.get?] at h
      have := ih j h
      simp only [inFlightCount, List.set, List.countP_cons] at this ⊢
      omega

/-- Releasing a permit (in-flight to finished at one position) lowers the
in-flight count by exactly one. -/
theorem inFlightCount_set_finish :
    ∀ (s : List TaskStatus) (i : Nat), s.get? i = some TaskStatus.inFlight →
      inFlightCount (s.set i TaskStatus.finished) + 1 = inFlightCount s := by
  intro s
  induction s with
  | nil => intro i h; simp at h
  | cons x rest ih =>
    intro i h
    cases i with
    | zero =>
      simp only [List.get?] at h
      cases h
      simp [inFlightCount, List.set, List.countP_cons]
    | succ j =>
      simp only [List.get?] at h
      have := ih j h
      simp only [inFlightCount, List.set, List.countP_cons] at this ⊢
      omega

/-- C9: in every reachable state of the semaphore-gated fan-out over a
256-address range, the number of simultaneously in-flight per-address
units of work is at most MAX_CONCURRENT_SCANS = 32. -/
theorem c9_concurrency_bound (s : ScanState) (h : ScanReachable s) :
    inFlightCount s ≤ MAX_CONCURRENT_SCANS := by
  induction h with
  | init =>
    have h0 : inFlightCount (List.replicate 256 TaskStatus.notStarted) = 0 := by
      unfold inFlightCount
      rw [List.countP_eq_zero]
      intro a ha
      have := List.eq_of_mem_replicate ha
      subst this
      decide
    rw [h0]
    exact Nat.zero_le _
  | step hr hstep ih =>
    cases hstep with
    | acquire i hi hcap =>
      have hc := inFlightCount_set_acquire _ i hi
      omega
    | finish i hi =>
      have hc := inFlightCount_set_finish _ i hi
      omega

/-- Witness for C9: the initial state of the fan-out is reachable and
satisfies the bound. -/
theorem c9_concurrency_bound_witness :
    inFlightCount (List.replicate 256 TaskStatus.notStarted) ≤ MAX_CONCURRENT_SCANS :=
  c9_concurrency_bound (List.replicate 256 TaskStatus.notStarted) ScanReachable.init

/-- Hexadecimal-digit test for canonical MAC notation. -/
def isHexDigitChar (c : Char) : Bool :=
  c.isDigit || ( 'a' ≤ c && c ≤ 'f') || ( 'A' ≤ c && c ≤ 'F')

/-- The canonical colon-separated MAC format XX:XX:XX:XX:XX:XX — six
two-hex-digit groups separated by colons — which the spec promises for a
returned MAC value. -/
def isXXFormat : List Char → Bool
  | [a, b, c1, d, e, c2, f, g, c3, h, i, c4, j, k, c5, l, m] =>
    c1 = ':' && c2 = ':' && c3 = ':' && c4 = ':' && c5 = ':' &&
      isHexDigitChar a && isHexDigitChar b && isHexDigitChar d && isHexDigitChar e &&
      isHexDigitChar f && isHexDigitChar g && isHexDigitChar h && isHexDigitChar i &&
      isHexDigitChar j && isHexDigitChar k && isHexDigitChar l && isHexDigitChar m
  | _ => false

/-- When the per-line step extracts a token, that token is MAC-shaped and
is the third whitespace field of a line containing the target address. -/
theorem lineMac_some (ipStr line mac : List Char) (h : lineMac ipStr line = some mac) :
    containsSeq ipStr line = true ∧ macShape mac = true ∧
      mac ∈ (splitWs line).drop 2 := by
  unfold lineMac at h
  by_cases hc : containsSeq ipStr line
  · rw [if_pos hc] at h
    cases hd : (splitWs line).drop 2 with
    | nil => rw [hd] at h; exact absurd h (by simp)
    | cons tok toks =>
      rw [hd] at h
      by_cases hm : macShape tok
      · have heq : tok = mac := by simpa [hm] using h
        subst heq
        exact ⟨hc, hm, List.mem_cons_self tok toks⟩
      · exact absurd h (by simp [hm])
  · rw [if_neg hc] at h
    exact absurd h (by simp)

/-- When no MAC-shaped token occurs among the third-and-later whitespace
fields of a line containing the address, the per-line step yields
nothing. -/
theorem lineMac_none (ipStr line : List Char)
    (h : containsSeq ipStr line = true →
      ∀ tok ∈ (splitWs line).drop 2, macShape tok = false) :
    lineMac ipStr line = none := by
  unfold lineMac
  by_cases hc : containsSeq ipStr line
  · rw [if_pos hc]
    cases hd : (splitWs line).drop 2 with
    | nil => rfl
    | cons tok toks =>
      have := h hc tok (by rw [hd]; exact List.mem_cons_self tok toks)
      simp [this]
  · rw [if_neg hc]

/-- C7 amended: whenever the MAC lookup returns a value, that value is a
token of MAC-address shape — 17 characters containing a colon — taken
from the third whitespace-separated field onward of an output line that
contains the target address; when no MAC-shaped token occurs in those
positions (in particular when the arp invocation failed), the lookup
returns no MAC.  (The source checks only shape, not the canonical
XX:XX:XX:XX:XX:XX format.) -/
theorem c7_mac_parse (ipStr : List Char) (out : Option (List (List Char))) :
    (∀ mac, getMacFromOutput ipStr out = some mac →
      macShape mac = true ∧ ∃ lines, out = some lines ∧ ∃ line ∈ lines,
        containsSeq ipStr line = true ∧ mac ∈ (splitWs line).drop 2) ∧
    ((∀ lines, out = some lines → ∀ line ∈ lines,
        containsSeq ipStr line = true →
        ∀ tok ∈ (splitWs line).drop 2, macShape tok = false) →
      getMacFromOutput ipStr out = none) := by
  constructor
  · intro mac h
    cases out with
    | none => exact absurd h (by simp [getMacFromOutput])
    | some lines =>
      obtain ⟨line, hmem, hline⟩ :=
        List.exists_of_findSome?_eq_some (h : lines.findSome? (lineMac ipStr) = some mac)
      obtain ⟨hc, hm, htok⟩ := lineMac_some ipStr line mac hline
      exact ⟨hm, lines, rfl, line, hmem, hc, htok⟩
  · intro h
    cases out with
    | none => rfl
    | some lines =>
      refine List.findSome?_eq_none_iff.mpr ?_
      intro line hmem
      exact lineMac_none ipStr line fun hc => h lines rfl line hmem hc

/-- Witness for C7: a canonical arp output line yields its MAC token, and
an output with no MAC-shaped token yields none. -/
theorem c7_mac_parse_witness :
    getMacFromOutput "192.168.1.7".data
        (some ["192.168.1.7 ether aa:bb:cc:dd:ee:ff C eth0".data]) =
        some "aa:bb:cc:dd:ee:ff".data ∧
      getMacFromOutput "192.168.1.7".data (some ["192.168.1.7 ether incomplete".data]) =
        none := by
  constructor
  · decide
  · exact (c7_mac_parse "192.168.1.7".data
      (some ["192.168.1.7 ether incomplete".data])).2 (by decide)

/-- Counterexample to C7 as stated: the source accepts any 17-character
token containing a colon, so a token that is not in canonical
XX:XX:XX:XX:XX:XX format is still returned as the MAC value. -/
theorem c7_counterexample :
    getMacFromOutput "10.0.0.5".data
        (some ["10.0.0.5 ether aaaaaaaaaaaaaaa:a extra".data]) =
        some "aaaaaaaaaaaaaaa:a".data ∧
      isXXFormat "aaaaaaaaaaaaaaa:a".data = false := by
  constructor
  · decide
  · decide

/-- ConfigurationSource from main.rs (the r#type field is the JSON key
"type"). -/
structure ConfigurationSource where
  type : String
  url : String
  access : String
deriving DecidableEq, Repr

/-- ConfigurationAccess from main.rs. -/
structure ConfigurationAccess where
  name : String
  type : String
  account : String
  secret : String
deriving DecidableEq, Repr

/-- Configuration from main.rs. -/
structure Configuration where
  accesses : List ConfigurationAccess
  sources : List ConfigurationSource
deriving DecidableEq, Repr

/-- The left brace character (written numerically because brace characters
in string literals would read as interpolation). -/
def lbrace : Char := Char.ofNat 123

/-- The right brace character. -/
def rbrace : Char := Char.ofNat 125

/-- The lowercase hexadecimal digit of value n, as used by serde_json's
escape table. -/
def hexDigitOf (n : Nat) : Char :=
  if n < 10 then Char.ofNat (48 + n) else Char.ofNat (87 + n)

/-- serde_json's escape of one character inside a JSON string literal:
quote and backslash get a two-character escape, the five named control
characters get their short escapes, every other control character below
0x20 becomes a lowercase \u00XX escape, and all remaining characters are
emitted verbatim. -/
def escChar (c : Char) : List Char :=
  if c = '"' then ['\\', '"']
  else if c = '\\' then ['\\', '\\']
  else if c = Char.ofNat 8 then ['\\', 'b']
  else if c = '\t' then ['\\', 't']
  else if c = '\n' then ['\\', 'n']
  else if c = Char.ofNat 12 then ['\\', 'f']
  else if c = '\r' then ['\\', 'r']
  else if c.toNat < 32 then
    ['\\', 'u', '0', '0', hexDigitOf (c.toNat / 16), hexDigitOf (c.toNat % 16)]
  else [c]

/-- Escape of a whole string body. -/
def escStr : List Char → List Char
  | [] => []
  | c :: rest => escChar c ++ escStr rest

/-- A JSON string literal: quote, escaped body, quote. -/
def renderStr (s : String) : List Char :=
  '"' :: (escStr s.data ++ ['"'])

/-- JSON whitespace as accepted by serde_json between tokens. -/
def isJsonWs (c : Char) : Bool :=
  c = ' ' || c = '\t' || c = '\n' || c = '\r'

/-- Skip insignificant whitespace. -/
def skipWs (cs : List Char) : List Char := cs.dropWhile isJsonWs

/-- Value of one hexadecimal digit (serde_json accepts both cases). -/
def hexVal (c : Char) : Option Nat :=
  if c.isDigit then some (c.toNat - 48)
  else if 'a' ≤ c && c ≤ 'f' then some (c.toNat - 87)
  else if 'A' ≤ c && c ≤ 'F' then some (c.toNat - 70)
  else none

/-- Body of a JSON string literal after the opening quote, as serde_json's
lexer reads it: plain characters up to the closing quote, with the
backslash escapes \" \\ \/ \b \f \n \r \t and \uXXXX (the lone-surrogate
\uXXXX range is rejected; the serializer never emits surrogate escapes, so
pair decoding is not modelled).  Returns the decoded body and the rest of
the input. -/
def parseStrBody : List Char → Option (List Char × List Char)
  | [] => none
  | c :: rest =>
    if c = '"' then some ([], rest)
    else if c = '\\' then
      match rest with
      | [] => none
      | e :: rest2 =>
        if e = '"' then (parseStrBody rest2).map (fun r => ( '"' :: r.1, r.2))
        else if e = '\\' then (parseStrBody rest2).map (fun r => ( '\\' :: r.1, r.2))
        else if e = '/' then (parseStrBody rest2).map (fun r => ( '/' :: r.1, r.2))
        else if e = 'b' then (parseStrBody rest2).map (fun r => (Char.ofNat 8 :: r.1, r.2))
        else if e = 'f' then (parseStrBody rest2).map (fun r => (Char.ofNat 12 :: r.1, r.2))
        else if e = 'n' then (parseStrBody rest2).map (fun r => ( '\n' :: r.1, r.2))
        else if e = 'r' then (parseStrBody rest2).map (fun r => ( '\r' :: r.1, r.2))
        else if e = 't' then (parseStrBody rest2).map (fun r => ( '\t' :: r.1, r.2))
        else if e = 'u' then
          match rest2 with
          | h1 :: h2 :: h3 :: h4 :: rest3 =>
            match hexVal h1, hexVal h2, hexVal h3, hexVal h4 with
            | some v1, some v2, some v3, some v4 =>
              let v := 4096 * v1 + 256 * v2 + 16 * v3 + v4
              if v < 55296 || 57343 < v then
                (parseStrBody rest3).map (fun r => (Char.ofNat v :: r.1, r.2))
              else none
            | _, _, _, _ => none
          | _ => none
        else none
    else (parseStrBody rest).map (fun r => (c :: r.1, r.2))

/-- Indentation of n spaces, as produced by serde_json's pretty
formatter. -/
def ind (n : Nat) : List Char := List.replicate n ' '

/-- Pretty-printed JSON for one ConfigurationAccess (an element at array
depth two: fields indented six spaces, closing brace four). -/
def renderAccess (a : ConfigurationAccess) : List Char :=
  [lbrace, '\n'] ++ ind 6 ++ renderStr "name" ++ ':' :: ' ' :: renderStr a.name
    ++ ',' :: '\n' :: (ind 6 ++ renderStr "type" ++ ':' :: ' ' :: renderStr a.type)
    ++ ',' :: '\n' :: (ind 6 ++ renderStr "account" ++ ':' :: ' ' :: renderStr a.account)
    ++ ',' :: '\n' :: (ind 6 ++ renderStr "secret" ++ ':' :: ' ' :: renderStr a.secret)
    ++ '\n' :: (ind 4 ++ [rbrace])

/-- Pretty-printed JSON for one ConfigurationSource. -/
def renderSource (s : ConfigurationSource) : List Char :=
  [lbrace, '\n'] ++ ind 6 ++ renderStr "type" ++ ':' :: ' ' :: renderStr s.type
    ++ ',' :: '\n' :: (ind 6 ++ renderStr "url" ++ ':' :: ' ' :: renderStr s.url)
    ++ ',' :: '\n' :: (ind 6 ++ renderStr "access" ++ ':' :: ' ' :: renderStr s.access)
    ++ '\n' :: (ind 4 ++ [rbrace])

/-- The elements of a non-empty pretty-printed array of accesses,
including the separators and the closing bracket. -/
def renderAccessSeq : List ConfigurationAccess → List Char
  | [] => []
  | [a] => renderAccess a ++ '\n' :: (ind 2 ++ [']'])
  | a :: b :: rest => renderAccess a ++ ',' :: '\n' :: (ind 4 ++ renderAccessSeq (b :: rest))

/-- The elements of a non-empty pretty-printed array of sources. -/
def renderSourceSeq : List ConfigurationSource → List Char
  | [] => []
  | [s] => renderSource s ++ '\n' :: (ind 2 ++ [']'])
  | s :: b :: rest => renderSource s ++ ',' :: '\n' :: (ind 4 ++ renderSourceSeq (b :: rest))

/-- A pretty-printed array of accesses ([] when empty). -/
def renderAccessArr : List ConfigurationAccess → List Char
  | [] => ['[', ']']
  | a :: rest => '[' :: '\n' :: (ind 4 ++ renderAccessSeq (a :: rest))

/-- A pretty-printed array of sources. -/
def renderSourceArr : List ConfigurationSource → List Char
  | [] => ['[', ']']
  | s :: rest => '[' :: '\n' :: (ind 4 ++ renderSourceSeq (s :: rest))

/-- serde_json::to_string_pretty for a Configuration: the top-level
object with its two keys in declaration order, two-space indentation. -/
def renderConfiguration (c : Configuration) : List Char :=
  [lbrace, '\n'] ++ ind 2 ++ renderStr "accesses" ++ ':' :: ' ' :: renderAccessArr c.accesses
    ++ ',' :: '\n' :: (ind 2 ++ renderStr "sources" ++ ':' :: ' ' :: renderSourceArr c.sources)
    ++ '\n' :: [rbrace]

/-- save_configuration from main.rs, with the file write abstracted away:
the text it persists for a configuration. -/
def save_configuration (c : Configuration) : List Char :=
  renderConfiguration c

/-- Skip whitespace, then require the character c. -/
def tokCh (c : Char) (cs : List Char) : Option (List Char) :=
  match skipWs cs with
  | d :: rest => if d = c then some rest else none
  | [] => none

/-- Skip whitespace, then read a JSON string literal. -/
def parseStringLit (cs : List Char) : Option (List Char × List Char) :=
  match skipWs cs with
  | d :: rest => if d = '"' then parseStrBody rest else none
  | [] => none

/-- Read one string-valued object field: the given key, a colon, a string
value.  (serde's derived deserializer also accepts the fields of a struct
in other orders; the canonical order emitted by the serializer is the one
modelled, which is the only order the round trip exercises.) -/
def parseField (key : List Char) (cs : List Char) : Option (List Char × List Char) := do
  let (k, r1) ← parseStringLit cs
  if k = key then
    let r2 ← tokCh ':' r1
    parseStringLit r2
  else none

/-- Deserialize one ConfigurationAccess object. -/
def parseAccess (cs : List Char) : Option (ConfigurationAccess × List Char) := do
  let r1 ← tokCh lbrace cs
  let (vname, r2) ← parseField "name".data r1
  let r3 ← tokCh ',' r2
  let (vtype, r4) ← parseField "type".data r3
  let r5 ← tokCh ',' r4
  let (vaccount, r6) ← parseField "account".data r5
  let r7 ← tokCh ',' r6
  let (vsecret, r8) ← parseField "secret".data r7
  let r9 ← tokCh rbrace r8
  pure (⟨String.mk vname, String.mk vtype, String.mk vaccount, String.mk vsecret⟩, r9)

/-- Deserialize one ConfigurationSource object. -/
def parseSource (cs : List Char) : Option (ConfigurationSource × List Char) := do
  let r1 ← tokCh lbrace cs
  let (vtype, r2) ← parseField "type".data r1
  let r3 ← tokCh ',' r2
  let (vurl, r4) ← parseField "url".data r3
  let r5 ← tokCh ',' r4
  let (vaccess, r6) ← parseField "access".data r5
  let r7 ← tokCh rbrace r6
  pure (⟨String.mk vtype, String.mk vurl, String.mk vaccess⟩, r7)

/-- The element loop of a non-empty JSON array of accesses: one element,
then either a closing bracket or a comma and further elements.  The fuel
argument bounds the number of elements; callers pass the input length,
which an element-consuming loop can never exceed. -/
def parseAccessElems : Nat → List Char → Option (List ConfigurationAccess × List Char)
  | 0, _ => none
  | fuel + 1, cs =>
    match parseAccess cs with
    | none => none
    | some (a, rest) =>
      match skipWs rest with
      | c :: rest2 =>
        if c = ']' then some ([a], rest2)
        else if c = ',' then
          match parseAccessElems fuel rest2 with
          | some (as2, rest3) => some (a :: as2, rest3)
          | none => none
        else none
      | [] => none

/-- The element loop of a non-empty JSON array of sources. -/
def parseSourceElems : Nat → List Char → Option (List ConfigurationSource × List Char)
  | 0, _ => none
  | fuel + 1, cs =>
    match parseSource cs with
    | none => none
    | some (s, rest) =>
      match skipWs rest with
      | c :: rest2 =>
        if c = ']' then some ([s], rest2)
        else if c = ',' then
          match parseSourceElems fuel rest2 with
          | some (ss2, rest3) => some (s :: ss2, rest3)
          | none => none
        else none
      | [] => none

/-- A JSON array of accesses: bracket, then empty or the element loop. -/
def parseAccessArr (cs : List Char) : Option (List ConfigurationAccess × List Char) :=
  match tokCh '[' cs with
  | none => none
  | some rest =>
    match skipWs rest with
    | c :: rest2 => if c = ']' then some ([], rest2) else parseAccessElems rest.length rest
    | [] => none

/-- A JSON array of sources. -/
def parseSourceArr (cs : List Char) : Option (List ConfigurationSource × List Char) :=
  match tokCh '[' cs with
  | none => none
  | some rest =>
    match skipWs rest with
    | c :: rest2 => if c = ']' then some ([], rest2) else parseSourceElems rest.length rest
    | [] => none

/-- Skip whitespace, then read the given key and its colon. -/
def parseKey (key : List Char) (cs : List Char) : Option (List Char) := do
  let (k, r1) ← parseStringLit cs
  if k = key then tokCh ':' r1 else none

/-- load_configuration from main.rs, with the file read abstracted away:
serde_json::from_str of the persisted text into a Configuration (none
models the surfaced parse error), requiring only whitespace after the
top-level object. -/
def load_configuration (cs : List Char) : Option Configuration := do
  let r1 ← tokCh lbrace cs
  let r2 ← parseKey "accesses".data r1
  let (accesses, r3) ← parseAccessArr r2
  let r4 ← tokCh ',' r3
  let r5 ← parseKey "sources".data r4
  let (sources, r6) ← parseSourceArr r5
  let r7 ← tokCh rbrace r6
  match skipWs r7 with
  | [] => pure ⟨accesses, sources⟩
  | _ => none

end Catalogizer

namespace Catalogizer

theorem hexVal_hexDigitOf (n : Nat) (h : n < 16) : hexVal (hexDigitOf n) = some n := by
  interval_cases n <;> decide

theorem parseStrBody_escStr (s : List Char) :
    ∀ rest, parseStrBody (escStr s ++ '"' :: rest) = some (s, rest) := by
  induction s with
  | nil =>
    intro rest
    rw [escStr, List.nil_append, parseStrBody.eq_def]
    simp
  | cons c s2 ih =>
    intro rest
    rw [escStr, List.append_assoc]
    unfold escChar
    by_cases h1 : c = '"'
    · rw [if_pos h1]; subst h1
      rw [List.cons_append, List.cons_append, List.nil_append, parseStrBody.eq_def]
      simp +decide [ih rest]
    rw [if_neg h1]
    by_cases h2 : c = '\\'
    · rw [if_pos h2]; subst h2
      rw [List.cons_append, List.cons_append, List.nil_append, parseStrBody.eq_def]
      simp +decide [ih rest]
    rw [if_neg h2]
    by_cases h3 : c = Char.ofNat 8
    · rw [if_pos h3]; subst h3
      rw [List.cons_append, List.cons_append, List.nil_append, parseStrBody.eq_def]
      simp +decide [ih rest]
    rw [if_neg h3]
    by_cases h4 : c = '\t'
    · rw [if_pos h4]; subst h4
      rw [List.cons_append, List.cons_append, List.nil_append, parseStrBody.eq_def]
      simp +decide [ih rest]
    rw [if_neg h4]
    by_cases h5 : c = '\n'
    · rw [if_pos h5]; subst h5
      rw [List.cons_append, List.cons_append, List.nil_append, parseStrBody.eq_def]
      simp +decide [ih rest]
    rw [if_neg h5]
    by_cases h6 : c = Char.ofNat 12
    · rw [if_pos h6]; subst h6
      rw [List.cons_append, List.cons_append, List.nil_append, parseStrBody.eq_def]
      simp +decide [ih rest]
    rw [if_neg h6]
    by_cases h7 : c = '\r'
    · rw [if_pos h7]; subst h7
      rw [List.cons_append, List.cons_append, List.nil_append, parseStrBody.eq_def]
      simp +decide [ih rest]
    rw [if_neg h7]
    by_cases h8 : c.toNat < 32
    · rw [if_pos h8]
      have hhi : c.toNat / 16 < 16 := by omega
      have hlo : c.toNat % 16 < 16 := by omega
      have hv : 16 * (c.toNat / 16) + c.toNat % 16 = c.toNat := by omega
      have hsmall : c.toNat < 55296 := by omega
      simp only [List.cons_append, List.nil_append]
      rw [parseStrBody.eq_def]
      have hz : hexVal '0' = some 0 := by decide
      simp +decide [hz, hexVal_hexDigitOf _ hhi, hexVal_hexDigitOf _ hlo, ih rest, hv, hsmall,
        Char.ofNat_toNat]
    · rw [if_neg h8]
      simp only [List.cons_append, List.nil_append]
      rw [parseStrBody.eq_def]
      simp [h1, h2, ih rest]

end Catalogizer

namespace Catalogizer


theorem skipWs_cons_ws (c : Char) (xs : List Char) (h : isJsonWs c = true) :
    skipWs (c :: xs) = skipWs xs := by
  simp [skipWs, List.dropWhile_cons, h]

theorem skipWs_cons_not (c : Char) (xs : List Char) (h : isJsonWs c = false) :
    skipWs (c :: xs) = c :: xs := by
  simp [skipWs, List.dropWhile_cons, h]

theorem skipWs_ind (n : Nat) (xs : List Char) : skipWs (ind n ++ xs) = skipWs xs := by
  induction n with
  | zero => simp [ind]
  | succ m ih =>
    have : ind (m + 1) = ' ' :: ind m := by simp [ind, List.replicate_succ]
    rw [this, List.cons_append, skipWs_cons_ws _ _ (by decide)]
    exact ih

theorem tokCh_cons_ws (d c : Char) (xs : List Char) (h : isJsonWs c = true) :
    tokCh d (c :: xs) = tokCh d xs := by
  simp [tokCh, skipWs_cons_ws _ _ h]

theorem tokCh_ind (d : Char) (n : Nat) (xs : List Char) :
    tokCh d (ind n ++ xs) = tokCh d xs := by
  simp [tokCh, skipWs_ind]

theorem tokCh_self (c : Char) (xs : List Char) (h : isJsonWs c = false) :
    tokCh c (c :: xs) = some xs := by
  simp [tokCh, skipWs_cons_not _ _ h]

theorem parseStringLit_cons_ws (c : Char) (xs : List Char) (h : isJsonWs c = true) :
    parseStringLit (c :: xs) = parseStringLit xs := by
  simp [parseStringLit, skipWs_cons_ws _ _ h]

theorem parseStringLit_ind (n : Nat) (xs : List Char) :
    parseStringLit (ind n ++ xs) = parseStringLit xs := by
  simp [parseStringLit, skipWs_ind]

theorem parseStringLit_render (s : String) (tail : List Char) :
    parseStringLit (renderStr s ++ tail) = some (s.data, tail) := by
  have hsh : renderStr s ++ tail = '"' :: (escStr s.data ++ ('"' :: tail)) := by
    simp [renderStr]
  rw [hsh, parseStringLit, skipWs_cons_not _ _ (by decide)]
  simp [parseStrBody_escStr]

theorem parseField_cons_ws (k : List Char) (c : Char) (xs : List Char)
    (h : isJsonWs c = true) :
    parseField k (c :: xs) = parseField k xs := by
  simp [parseField, parseStringLit_cons_ws _ _ h]

theorem parseField_ind (k : List Char) (n : Nat) (xs : List Char) :
    parseField k (ind n ++ xs) = parseField k xs := by
  simp [parseField, parseStringLit_ind]

theorem parseField_render (k v : String) (tail : List Char) :
    parseField k.data (renderStr k ++ ':' :: ' ' :: (renderStr v ++ tail)) =
      some (v.data, tail) := by
  rw [parseField]
  rw [parseStringLit_render k (':' :: ' ' :: (renderStr v ++ tail))]
  simp only [bind, Option.bind, if_pos rfl]
  rw [tokCh_self ':' _ (by decide)]
  simp only [Option.bind]
  rw [parseStringLit_cons_ws ' ' _ (by decide), parseStringLit_render]
  simp

end Catalogizer

namespace Catalogizer

theorem parseAccess_render (a : ConfigurationAccess) (tail : List Char) :
    parseAccess (renderAccess a ++ tail) = some (a, tail) := by
  simp only [renderAccess, List.append_assoc, List.cons_append, List.nil_append]
  unfold parseAccess
  rw [tokCh_self lbrace _ (by decide)]
  simp only [bind, Option.bind]
  rw [parseField_cons_ws _ '\n' _ (by decide), parseField_ind, parseField_render]
  simp only [Option.bind]
  rw [tokCh_self ',' _ (by decide)]
  simp only [Option.bind]
  rw [parseField_cons_ws _ '\n' _ (by decide), parseField_ind, parseField_render]
  simp only [Option.bind]
  rw [tokCh_self ',' _ (by decide)]
  simp only [Option.bind]
  rw [parseField_cons_ws _ '\n' _ (by decide), parseField_ind, parseField_render]
  simp only [Option.bind]
  rw [tokCh_self ',' _ (by decide)]
  simp only [Option.bind]
  rw [parseField_cons_ws _ '\n' _ (by decide), parseField_ind, parseField_render]
  simp only [Option.bind]
  rw [tokCh_cons_ws rbrace '\n' _ (by decide), tokCh_ind, tokCh_self rbrace _ (by decide)]
  simp only [Option.bind]
  rfl

theorem parseSource_render (s : ConfigurationSource) (tail : List Char) :
    parseSource (renderSource s ++ tail) = some (s, tail) := by
  simp only [renderSource, List.append_assoc, List.cons_append, List.nil_append]
  unfold parseSource
  rw [tokCh_self lbrace _ (by decide)]
  simp only [bind, Option.bind]
  rw [parseField_cons_ws _ '\n' _ (by decide), parseField_ind, parseField_render]
  simp only [Option.bind]
  rw [tokCh_self ',' _ (by decide)]
  simp only [Option.bind]
  rw [parseField_cons_ws _ '\n' _ (by decide), parseField_ind, parseField_render]
  simp only [Option.bind]
  rw [tokCh_self ',' _ (by decide)]
  simp only [Option.bind]
  rw [parseField_cons_ws _ '\n' _ (by decide), parseField_ind, parseField_render]
  simp only [Option.bind]
  rw [tokCh_cons_ws rbrace '\n' _ (by decide), tokCh_ind, tokCh_self rbrace _ (by decide)]
  simp only [Option.bind]
  rfl

end Catalogizer

namespace Catalogizer

theorem parseAccess_nl_ind (n : Nat) (xs : List Char) :
    parseAccess ('\n' :: (ind n ++ xs)) = parseAccess xs := by
  unfold parseAccess
  rw [tokCh_cons_ws lbrace '\n' _ (by decide), tokCh_ind]

theorem parseSource_nl_ind (n : Nat) (xs : List Char) :
    parseSource ('\n' :: (ind n ++ xs)) = parseSource xs := by
  unfold parseSource
  rw [tokCh_cons_ws lbrace '\n' _ (by decide), tokCh_ind]

theorem parseAccessElems_nl_ind (fuel n : Nat) (xs : List Char) :
    parseAccessElems fuel ('\n' :: (ind n ++ xs)) = parseAccessElems fuel xs := by
  cases fuel with
  | zero => rfl
  | succ f =>
    simp only [parseAccessElems]
    rw [parseAccess_nl_ind]

theorem parseSourceElems_nl_ind (fuel n : Nat) (xs : List Char) :
    parseSourceElems fuel ('\n' :: (ind n ++ xs)) = parseSourceElems fuel xs := by
  cases fuel with
  | zero => rfl
  | succ f =>
    simp only [parseSourceElems]
    rw [parseSource_nl_ind]

theorem parseAccessElems_seq :
    ∀ (l : List ConfigurationAccess) (fuel : Nat) (tail : List Char),
      l ≠ [] → l.length ≤ fuel →
      parseAccessElems fuel (renderAccessSeq l ++ tail) = some (l, tail) := by
  intro l
  induction l with
  | nil => intro fuel tail hne _; exact absurd rfl hne
  | cons a l2 ih =>
    intro fuel tail _ hlen
    cases fuel with
    | zero => simp at hlen
    | succ f =>
      cases l2 with
      | nil =>
        simp only [renderAccessSeq, List.append_assoc, List.cons_append, List.nil_append]
        simp only [parseAccessElems]
        rw [parseAccess_render]
        have hsw : skipWs ('\n' :: (ind 2 ++ ']' :: tail)) = ']' :: tail := by
          rw [skipWs_cons_ws '\n' _ (by decide), skipWs_ind,
            skipWs_cons_not ']' _ (by decide)]
        simp +decide [hsw]
      | cons b l3 =>
        simp only [renderAccessSeq, List.append_assoc, List.cons_append, List.nil_append]
        simp only [parseAccessElems]
        rw [parseAccess_render]
        have hsw : skipWs (',' :: '\n' :: (ind 4 ++ (renderAccessSeq (b :: l3) ++ tail))) =
            ',' :: '\n' :: (ind 4 ++ (renderAccessSeq (b :: l3) ++ tail)) :=
          skipWs_cons_not ',' _ (by decide)
        have hrec := parseAccessElems_nl_ind f 4 (renderAccessSeq (b :: l3) ++ tail)
        have hseq := ih f tail (by simp) (by simp at hlen ⊢; omega)
        simp +decide [hsw, hrec, hseq]

theorem parseSourceElems_seq :
    ∀ (l : List ConfigurationSource) (fuel : Nat) (tail : List Char),
      l ≠ [] → l.length ≤ fuel →
      parseSourceElems fuel (renderSourceSeq l ++ tail) = some (l, tail) := by
  intro l
  induction l with
  | nil => intro fuel tail hne _; exact absurd rfl hne
  | cons a l2 ih =>
    intro fuel tail _ hlen
    cases fuel with
    | zero => simp at hlen
    | succ f =>
      cases l2 with
      | nil =>
        simp only [renderSourceSeq, List.append_assoc, List.cons_append, List.nil_append]
        simp only [parseSourceElems]
        rw [parseSource_render]
        have hsw : skipWs ('\n' :: (ind 2 ++ ']' :: tail)) = ']' :: tail := by
          rw [skipWs_cons_ws '\n' _ (by decide), skipWs_ind,
            skipWs_cons_not ']' _ (by decide)]
        simp +decide [hsw]
      | cons b l3 =>
        simp only [renderSourceSeq, List.append_assoc, List.cons_append, List.nil_append]
        simp only [parseSourceElems]
        rw [parseSource_render]
        have hsw : skipWs (',' :: '\n' :: (ind 4 ++ (renderSourceSeq (b :: l3) ++ tail))) =
            ',' :: '\n' :: (ind 4 ++ (renderSourceSeq (b :: l3) ++ tail)) :=
          skipWs_cons_not ',' _ (by decide)
        have hrec := parseSourceElems_nl_ind f 4 (renderSourceSeq (b :: l3) ++ tail)
        have hseq := ih f tail (by simp) (by simp at hlen ⊢; omega)
        simp +decide [hsw, hrec, hseq]

end Catalogizer

namespace Catalogizer

theorem renderAccessSeq_cons_eq (a : ConfigurationAccess) (l : List ConfigurationAccess) :
    ∃ ys, renderAccessSeq (a :: l) = lbrace :: ys := by
  cases l <;> exact ⟨_, rfl⟩

theorem renderSourceSeq_cons_eq (s : ConfigurationSource) (l : List ConfigurationSource) :
    ∃ ys, renderSourceSeq (s :: l) = lbrace :: ys := by
  cases l <;> exact ⟨_, rfl⟩

theorem renderAccessSeq_len : ∀ l : List ConfigurationAccess,
    l.length ≤ (renderAccessSeq l).length := by
  intro l
  induction l with
  | nil => simp [renderAccessSeq]
  | cons a l2 ih =>
    cases l2 with
    | nil =>
      simp [renderAccessSeq, List.length_append, ind]
    | cons b l3 =>
      simp only [renderAccessSeq, List.length_append, List.length_cons, ind,
        List.length_replicate] at ih ⊢
      omega

theorem renderSourceSeq_len : ∀ l : List ConfigurationSource,
    l.length ≤ (renderSourceSeq l).length := by
  intro l
  induction l with
  | nil => simp [renderSourceSeq]
  | cons a l2 ih =>
    cases l2 with
    | nil =>
      simp [renderSourceSeq, List.length_append, ind]
    | cons b l3 =>
      simp only [renderSourceSeq, List.length_append, List.length_cons, ind,
        List.length_replicate] at ih ⊢
      omega

theorem parseAccessArr_render (l : List ConfigurationAccess) (tail : List Char) :
    parseAccessArr (renderAccessArr l ++ tail) = some (l, tail) := by
  cases l with
  | nil =>
    simp only [renderAccessArr, List.cons_append, List.nil_append]
    unfold parseAccessArr
    rw [tokCh_self '[' _ (by decide)]
    have hsw : skipWs (']' :: tail) = ']' :: tail := skipWs_cons_not ']' _ (by decide)
    simp +decide [hsw]
  | cons a rest =>
    simp only [renderAccessArr, List.append_assoc, List.cons_append, List.nil_append]
    unfold parseAccessArr
    rw [tokCh_self '[' _ (by decide)]
    obtain ⟨ys, hys⟩ := renderAccessSeq_cons_eq a rest
    have hsw : skipWs ('\n' :: (ind 4 ++ (renderAccessSeq (a :: rest) ++ tail))) =
        lbrace :: (ys ++ tail) := by
      rw [skipWs_cons_ws '\n' _ (by decide), skipWs_ind, hys, List.cons_append,
        skipWs_cons_not lbrace _ (by decide)]
    have hlen1 : (a :: rest).length ≤
        ('\n' :: (ind 4 ++ (renderAccessSeq (a :: rest) ++ tail))).length := by
      have h1 := renderAccessSeq_len (a :: rest)
      simp only [List.length_cons, List.length_append, ind, List.length_replicate] at h1 ⊢
      omega
    have hrec := parseAccessElems_nl_ind
      (('\n' :: (ind 4 ++ (renderAccessSeq (a :: rest) ++ tail))).length) 4
      (renderAccessSeq (a :: rest) ++ tail)
    have helems := parseAccessElems_seq (a :: rest) _ tail (by simp) hlen1
    simp only [List.length_cons, List.length_append] at hrec helems
    simp +decide [hsw, hrec, helems]

theorem parseSourceArr_render (l : List ConfigurationSource) (tail : List Char) :
    parseSourceArr (renderSourceArr l ++ tail) = some (l, tail) := by
  cases l with
  | nil =>
    simp only [renderSourceArr, List.cons_append, List.nil_append]
    unfold parseSourceArr
    rw [tokCh_self '[' _ (by decide)]
    have hsw : skipWs (']' :: tail) = ']' :: tail := skipWs_cons_not ']' _ (by decide)
    simp +decide [hsw]
  | cons a rest =>
    simp only [renderSourceArr, List.append_assoc, List.cons_append, List.nil_append]
    unfold parseSourceArr
    rw [tokCh_self '[' _ (by decide)]
    obtain ⟨ys, hys⟩ := renderSourceSeq_cons_eq a rest
    have hsw : skipWs ('\n' :: (ind 4 ++ (renderSourceSeq (a :: rest) ++ tail))) =
        lbrace :: (ys ++ tail) := by
      rw [skipWs_cons_ws '\n' _ (by decide), skipWs_ind, hys, List.cons_append,
        skipWs_cons_not lbrace _ (by decide)]
    have hlen1 : (a :: rest).length ≤
        ('\n' :: (ind 4 ++ (renderSourceSeq (a :: rest) ++ tail))).length := by
      have h1 := renderSourceSeq_len (a :: rest)
      simp only [List.length_cons, List.length_append, ind, List.length_replicate] at h1 ⊢
      omega
    have hrec := parseSourceElems_nl_ind
      (('\n' :: (ind 4 ++ (renderSourceSeq (a :: rest) ++ tail))).length) 4
      (renderSourceSeq (a :: rest) ++ tail)
    have helems := parseSourceElems_seq (a :: rest) _ tail (by simp) hlen1
    simp only [List.length_cons, List.length_append] at hrec helems
    simp +decide [hsw, hrec, helems]

end Catalogizer

namespace Catalogizer

theorem parseKey_cons_ws (k : List Char) (c : Char) (xs : List Char)
    (h : isJsonWs c = true) :
    parseKey k (c :: xs) = parseKey k xs := by
  simp [parseKey, parseStringLit_cons_ws _ _ h]

theorem parseKey_ind (k : List Char) (n : Nat) (xs : List Char) :
    parseKey k (ind n ++ xs) = parseKey k xs := by
  simp [parseKey, parseStringLit_ind]

theorem parseKey_render (k : String) (xs : List Char) :
    parseKey k.data (renderStr k ++ ':' :: ' ' :: xs) = some (' ' :: xs) := by
  unfold parseKey
  rw [parseStringLit_render k (':' :: ' ' :: xs)]
  simp only [bind, Option.bind, if_pos rfl]
  rw [tokCh_self ':' _ (by decide)]
  simp

theorem parseAccessArr_cons_ws (c : Char) (xs : List Char) (h : isJsonWs c = true) :
    parseAccessArr (c :: xs) = parseAccessArr xs := by
  unfold parseAccessArr
  rw [tokCh_cons_ws '[' c _ h]

theorem parseSourceArr_cons_ws (c : Char) (xs : List Char) (h : isJsonWs c = true) :
    parseSourceArr (c :: xs) = parseSourceArr xs := by
  unfold parseSourceArr
  rw [tokCh_cons_ws '[' c _ h]

/-- C10: serializing any Configuration the way save_configuration does
(pretty-printed JSON) and parsing the resulting text the way
load_configuration does yields the original Configuration unchanged. -/
theorem c10_configuration_roundtrip (c : Configuration) :
    load_configuration (save_configuration c) = some c := by
  unfold save_configuration renderConfiguration load_configuration
  simp only [List.append_assoc, List.cons_append, List.nil_append]
  rw [tokCh_self lbrace _ (by decide)]
  simp only [bind, Option.bind]
  rw [parseKey_cons_ws _ '\n' _ (by decide), parseKey_ind, parseKey_render]
  simp only [Option.bind]
  rw [parseAccessArr_cons_ws ' ' _ (by decide), parseAccessArr_render]
  simp only [Option.bind]
  rw [tokCh_self ',' _ (by decide)]
  simp only [Option.bind]
  rw [parseKey_cons_ws _ '\n' _ (by decide), parseKey_ind, parseKey_render]
  simp only [Option.bind]
  rw [parseSourceArr_cons_ws ' ' _ (by decide), parseSourceArr_render]
  simp only [Option.bind]
  rw [tokCh_cons_ws rbrace '\n' _ (by decide), tokCh_self rbrace _ (by decide)]
  simp only [Option.bind]
  rfl

end Catalogizer
